import Mathlib

/-!
Verification of the display pipeline of PySerialUI (src/serial_gui.py).

The Python source is shallowly embedded below.  The escape-sequence
interpreter `AnsiColorizer.process_text` (lines 145-178 of serial_gui.py),
its code tables `COLORS` / `ATTRIBUTES`, the text/hex formatting paths of
`SerialGUI.display_data` (lines 558-612), and the failure handling of
`SerialGUI.open_connection` (lines 489-519) are translated into executable
Lean definitions; the claim theorems at the end of the file are stated over
these definitions.
-/

namespace PySerialUI

/-- The `COLORS` dict of `AnsiColorizer` (serial_gui.py lines 98-115):
16 foreground SGR code strings mapped to 8 color names. -/
def COLORS : List (String × String) :=
  [("30", "black"), ("31", "red"), ("32", "green"), ("33", "yellow"),
   ("34", "blue"), ("35", "magenta"), ("36", "cyan"), ("37", "white"),
   ("90", "gray"), ("91", "red"), ("92", "green"), ("93", "yellow"),
   ("94", "blue"), ("95", "magenta"), ("96", "cyan"), ("97", "white")]

/-- The `ATTRIBUTES` dict (lines 118-122). -/
def ATTRIBUTES : List (String × String) :=
  [("1", "bold"), ("3", "italic"), ("4", "underline")]

/-- ASCII decimal digit, the `\d` of the regex at line 95 (the serial byte
stream is ASCII, so the unicode digits Python's `\d` would additionally
accept do not arise). -/
def isDigitChar (c : Char) : Bool := c ∈ "0123456789".data

/-- A character the parameter group of `ANSI_PATTERN` can consume:
a decimal digit or `;`. -/
def isParamChar (c : Char) : Bool := isDigitChar c || c = ';'

/-- Python `str.startswith`, used on tag names (`tag.startswith('fg_')`,
`tag.startswith('bg_')`) and on codes (`code.startswith('4')`):
the argument is a prefix of the string. -/
def pyStartsWith (s pre : String) : Bool := pre.data.isPrefixOf s.data

/-- Numeric value of an (all-digit) decimal string, as computed by Python
`int` on the strings at hand. -/
def decValue (s : String) : Nat :=
  s.data.foldl (fun n c => 10 * n + (c.toNat - 48)) 0

/-- Python `str.split(sep)` for a one-character separator, on the character
list of the string: `"a\n\nb\n".split('\n') = ["a", "", "b", ""]` and
`"".split('\n') = [""]`. -/
def splitChar (sep : Char) : List Char → List (List Char)
  | [] => [[]]
  | c :: rest =>
    if c = sep then [] :: splitChar sep rest
    else
      match splitChar sep rest with
      | g :: gs => (c :: g) :: gs
      | [] => [[c]]

/-- A run of characters matches the regex parameter group `((?:\d+;)*\d+)`
exactly when it is nonempty and splits at `;` into nonempty all-digit
groups (no leading, trailing or doubled semicolon). -/
def validParams (run : List Char) : Bool :=
  !run.isEmpty && (splitChar ';' run).all fun g => !g.isEmpty && g.all isDigitChar

/-- One iteration of the `for code in codes` loop of `process_text`
(lines 164-176), updating the set of active tkinter tag names for a single
SGR parameter-code string:
reset clears everything; a `COLORS` key replaces the foreground tag; a code
starting with `'4'` whose remainder (`code[1:]`) is a `COLORS` key replaces
the background tag; an `ATTRIBUTES` key adds its attribute tag; anything
else leaves the set unchanged. -/
def applyCode (tags : Finset String) (code : String) : Finset String :=
  if code = "0" then ∅
  else if (COLORS.lookup code).isSome then
    insert ("fg_" ++ code) (tags.filter fun t => ¬ pyStartsWith t "fg_")
  else if pyStartsWith code "4" && (COLORS.lookup (String.mk (code.data.drop 1))).isSome then
    insert ("bg_" ++ code) (tags.filter fun t => ¬ pyStartsWith t "bg_")
  else
    match ATTRIBUTES.lookup code with
    | some attr => insert attr tags
    | none => tags

/-- `codes = parts[i].split(';')` followed by the code loop (lines 163-176):
the parameter string is split at `;` and the codes are applied left to
right. -/
def applySGR (tags : Finset String) (params : String) : Finset String :=
  ((splitChar ';' params.data).map String.mk).foldl applyCode tags

/-- Character-level token produced by scanning with `ANSI_PATTERN`
(line 95): a literal character, or one matched control sequence carrying
its two regex groups (the optional parameter string, `none` when the group
did not participate, and the final letter). -/
inductive CTok where
  | lit (c : Char) : CTok
  | ctl (params : Option String) (letter : Char) : CTok
deriving DecidableEq

/-- Attempt to match `ANSI_PATTERN` at the head of `c :: rest`: the match
requires `ESC` `[`, then the maximal run of digit/semicolon characters,
which must be empty or a valid parameter list, then one ASCII letter.
Returns the two groups and the remaining input on success. -/
def tokStep (c : Char) (rest : List Char) : Option (Option String × Char × List Char) :=
  if c = '\x1b' then
    match rest with
    | '[' :: rest1 =>
      let run := rest1.takeWhile isParamChar
      match rest1.drop run.length with
      | a :: rest2 =>
        if a.isAlpha && (run.isEmpty || validParams run) then
          some (if run.isEmpty then none else some (String.mk run), a, rest2)
        else none
      | [] => none
    | _ => none
  else none

/-- Left-to-right regex scan realizing `ANSI_PATTERN.split(text)` at
character level: where no match starts, the character is a literal and the
scan resumes one character later, exactly as `re` does.  The fuel argument
(instantiated with the input length) only bounds the recursion; every
recursive call strictly shortens the input. -/
def tokenizeAux : Nat → List Char → List CTok
  | 0, _ => []
  | _ + 1, [] => []
  | fuel + 1, c :: rest =>
    match tokStep c rest with
    | some (p, a, rest2) => CTok.ctl p a :: tokenizeAux fuel rest2
    | none => CTok.lit c :: tokenizeAux fuel rest

def tokenize (l : List Char) : List CTok := tokenizeAux l.length l

/-- Part-level token mirroring the `parts` list of
`re.split(ANSI_PATTERN, text)`: a nonempty literal text part, or a control
sequence with its groups. -/
inductive Tok where
  | lit (s : String) : Tok
  | ctl (params : Option String) (letter : Char) : Tok
deriving DecidableEq

/-- Collects maximal runs of literal characters into the nonempty text
parts that `re.split` yields between control sequences.  Empty parts are
skipped by the `if parts[i]` guard of `process_text` and need not be
materialized. -/
def coalesce : List CTok → List Tok
  | [] => []
  | CTok.lit c :: rest =>
    match coalesce rest with
    | Tok.lit s :: ts => Tok.lit (String.mk (c :: s.data)) :: ts
    | ts => Tok.lit (String.mk [c]) :: ts
  | CTok.ctl p a :: rest => Tok.ctl p a :: coalesce rest

/-- One `(text, styleSnapshot)` insertion into the output widget:
`self.text.insert(tk.END, parts[i], tuple(active_tags))` at line 159. -/
structure Fragment where
  text : String
  tags : Finset String
deriving DecidableEq

/-- The main loop of `process_text` (lines 150-178): a literal part is
inserted with a snapshot of the current tag set; a control part whose
parameter group matched (`parts[i]` is not `None`, hence truthy) and whose
final letter is `m` runs the SGR code loop; every other control part is
discarded.  Returns the inserted fragments in order, together with the
final value of `active_tags`. -/
def processToks : Finset String → List Tok → List Fragment × Finset String
  | tags, [] => ([], tags)
  | tags, Tok.lit s :: rest =>
    let out := processToks tags rest
    (⟨s, tags⟩ :: out.1, out.2)
  | tags, Tok.ctl p a :: rest =>
    match p with
    | some ps => if a = 'm' then processToks (applySGR tags ps) rest else processToks tags rest
    | none => processToks tags rest

/-- `AnsiColorizer.process_text` (lines 145-178).  Note that the Python
method initializes `active_tags = set()` afresh at line 151 on every call
and discards the set when it returns; the final tag set is exposed here so
that theorems can talk about it. -/
def process_text (text : String) : List Fragment × Finset String :=
  processToks ∅ (coalesce (tokenize text.data))

/-- The output widget as the display pipeline observes it: the ordered
fragments appended so far. -/
structure Widget where
  content : List Fragment
deriving DecidableEq

/-- `SerialGUI._update_display` (lines 614-620) as it affects the output
widget: one call of `process_text` appends its fragments at the end. -/
def update_display (w : Widget) (text : String) : Widget :=
  ⟨w.content ++ (process_text text).1⟩

/-- Truthiness of `line.strip()` for a line produced by `split('\n')`
after `'\r'` removal: true when some character is not (ASCII) whitespace. -/
def lineSurvives (line : String) : Bool :=
  line.data.any fun c =>
    !(c = ' ' || c = '\t' || c = '\n' || c = '\r' || c = '\x0b' || c = '\x0c')

/-- The per-line loop of `display_data`'s text path (lines 584-608; the
timestamp branch and the no-timestamp branch run the same loop, differing
only in the prefix `pre`, which is the timestamp string or `""`):
lines that strip to empty are skipped, every kept line is prefixed with
`pre`, and a line feed is appended exactly when the line is not the last
element of the split (`i < len(lines) - 1`). -/
def formatLines (pre : String) : List String → List String
  | [] => []
  | [line] => if lineSurvives line then [pre ++ line] else []
  | line :: rest =>
    (if lineSurvives line then [pre ++ line ++ "\n"] else []) ++ formatLines pre rest

/-- `display_data`'s text branch (lines 575-610) up to the hand-off to the
colorizer: remove every `'\r'` (`text.replace('\r', '')`), split at `'\n'`,
run the line loop and join the results (`''.join(result)`).  `timestamp`
is the already-formatted timestamp prefix, `""` when timestamps are off. -/
def display_text (text : String) (timestamp : String) : String :=
  let t := text.data.filter fun c => c ≠ '\r'
  let lines := (splitChar '\n' t).map String.mk
  String.join (formatLines timestamp lines)

/-- One lowercase hexadecimal digit character, for values below 16. -/
def hexDigit (n : Nat) : Char :=
  if n < 10 then Char.ofNat (48 + n) else Char.ofNat (87 + n)

/-- `binascii.hexlify(data)` (line 570): every byte as two lowercase hex
digits, concatenated. -/
def hexlify (data : List Nat) : List Char :=
  (data.map fun b => [hexDigit (b / 16), hexDigit (b % 16)]).flatten

/-- The slicing loop `hex_data[i:i+2] for i in range(0, len(hex_data), 2)`
(line 572): consecutive two-character slices. -/
def chunkPairs : List Char → List (List Char)
  | [] => []
  | [c] => [[c]]
  | a :: b :: rest => [a, b] :: chunkPairs rest

/-- Python `' '.join(...)` (line 572): pieces joined by a single space. -/
def joinWith (sep : String) : List String → String
  | [] => ""
  | [s] => s
  | s :: rest => s ++ sep ++ joinWith sep rest

/-- `display_data`'s hex branch (lines 568-574): hexlify the bytes, join
the two-digit pairs with single spaces, and prepend the timestamp string
(which is `""` when timestamps are off) once to the whole string. -/
def display_hex (data : List Nat) (timestamp : String) : String :=
  timestamp ++ joinWith " " ((chunkPairs (hexlify data)).map String.mk)

/-- The two lowercase hex digits of one byte, as rendered by `hexlify`. -/
def hexPairStr (b : Nat) : String := String.mk [hexDigit (b / 16), hexDigit (b % 16)]

/-- A lowercase hexadecimal digit character. -/
def isLowerHexDigit (c : Char) : Bool := c ∈ "0123456789abcdef".data

/-- The connection-related state of `SerialGUI`: the device handle
(`self.serial_port`, `none` while closed), the reader-loop flag
(`self.is_reading`), whether a reader thread was started
(`self.read_thread`), and the status bar text (`self.status_var`). -/
structure ConnState where
  serial_port : Option Nat
  is_reading : Bool
  read_thread : Bool
  status : String
deriving DecidableEq

/-- Outcome of the external `serial.Serial(port, baud_rate, timeout=1)`
constructor call: a device handle, or a raised `SerialException`. -/
inductive OpenResult where
  | ok (handle : Nat) : OpenResult
  | serialError : OpenResult
deriving DecidableEq

/-- Python `int()` on the baud-combo text, which holds unsigned decimal
strings: the value on an all-digit string, `none` (a `ValueError`)
otherwise. -/
def pyIntDec (s : String) : Option Nat :=
  if !s.data.isEmpty && s.data.all isDigitChar then some (decValue s) else none

/-- `SerialGUI.open_connection` (lines 489-519).  The baud text is parsed
first (`int` raises `ValueError` before `serial.Serial` runs); on a
`SerialException` the `self.serial_port` assignment has not happened; on
success the status is set, the reader flag raised and the reader thread
started.  Button/entry widget toggles are omitted as presentation glue. -/
def open_connection (st : ConnState) (port : String) (baudText : String)
    (dev : OpenResult) : ConnState :=
  if port = "" then { st with status := "Error: No port selected" }
  else
    match pyIntDec baudText with
    | none => { st with status := "Error: Invalid baud rate" }
    | some baud =>
      match dev with
      | OpenResult.serialError =>
        { st with status := "Error: Could not open port " ++ port }
      | OpenResult.ok h =>
        { serial_port := some h, is_reading := true, read_thread := true,
          status := "Connected to " ++ port ++ " at " ++ toString baud ++ " baud" }

/-- The tag names configured on the text widget by `init_tags`
(lines 128-143): `fg_<code>` and `bg_<str(int(code) + 10)>` for every
`COLORS` entry, the three attribute tags, and `reset`. -/
def configuredTags : List String :=
  (COLORS.map fun p => "fg_" ++ p.1) ++
  (COLORS.map fun p => "bg_" ++ toString (decValue p.1 + 10)) ++
  ["bold", "italic", "underline", "reset"]

/-- The ActiveStyleSet invariant of the specification: at most one
foreground tag and at most one background tag are present. -/
def styleInv (tags : Finset String) : Prop :=
  (tags.filter fun t => pyStartsWith t "fg_").card ≤ 1 ∧
  (tags.filter fun t => pyStartsWith t "bg_").card ≤ 1

/-!
### Helper lemmas

Fuel irrelevance and single-step characterizations of the scanner, the
shape lemmas for tag filtering, and small facts about the code tables.
-/

theorem takeWhile_length_le (p : Char → Bool) (l : List Char) :
    (l.takeWhile p).length ≤ l.length := by
  induction l with
  | nil => simp
  | cons a l ih =>
    rw [List.takeWhile_cons]
    split
    · simpa using ih
    · simp

theorem tokStep_length (c : Char) (rest : List Char) (p : Option String) (a : Char)
    (rest2 : List Char) (h : tokStep c rest = some (p, a, rest2)) :
    rest2.length < rest.length := by
  simp only [tokStep] at h
  split at h
  · split at h
    · next rest1 =>
      split at h
      · next a' rest2' heq =>
        split at h
        · have h1 : rest2 = rest2' := by
            simp only [Option.some.injEq, Prod.mk.injEq] at h
            exact h.2.2.symm
          subst h1
          have h2 := congrArg List.length heq
          rw [List.length_drop] at h2
          simp only [List.length_cons, List.length_cons] at h2
          have h3 : (List.takeWhile isParamChar rest1).length ≤ rest1.length :=
            takeWhile_length_le _ _
          simp only [List.length_cons]
          omega
        · exact absurd h (by simp)
      · exact absurd h (by simp)
    · exact absurd h (by simp)
  · exact absurd h (by simp)

theorem tokenizeAux_nil (fuel : Nat) : tokenizeAux fuel [] = [] := by
  cases fuel <;> rfl

theorem tokenizeAux_fuel : ∀ (f1 : Nat) (l : List Char) (f2 : Nat),
    l.length ≤ f1 → l.length ≤ f2 → tokenizeAux f1 l = tokenizeAux f2 l := by
  intro f1
  induction f1 with
  | zero =>
    intro l f2 h1 _
    have : l = [] := List.eq_nil_of_length_eq_zero (Nat.le_zero.mp h1)
    subst this
    simp [tokenizeAux_nil]
  | succ f ih =>
    intro l f2 h1 h2
    cases l with
    | nil => simp [tokenizeAux_nil]
    | cons c rest =>
      cases f2 with
      | zero => simp at h2
      | succ f2' =>
        simp only [tokenizeAux]
        cases h : tokStep c rest with
        | none =>
          simp only [List.length_cons] at h1 h2
          dsimp only
          rw [ih rest f2' (by omega) (by omega)]
        | some t =>
          obtain ⟨p, a, rest2⟩ := t
          have hlen := tokStep_length c rest p a rest2 h
          simp only [List.length_cons] at h1 h2
          dsimp only
          rw [ih rest2 f2' (by omega) (by omega)]

theorem tokenize_cons_of_tokStep (c : Char) (rest : List Char) (p : Option String)
    (a : Char) (rest2 : List Char) (h : tokStep c rest = some (p, a, rest2)) :
    tokenize (c :: rest) = CTok.ctl p a :: tokenize rest2 := by
  unfold tokenize
  simp only [List.length_cons, tokenizeAux, h]
  have := tokStep_length c rest p a rest2 h
  rw [tokenizeAux_fuel rest.length rest2 rest2.length (by omega) (by omega)]

theorem takeWhile_param_append (ps : List Char) (a : Char) (l : List Char)
    (hps : ∀ c ∈ ps, isParamChar c = true) (ha : isParamChar a = false) :
    (ps ++ a :: l).takeWhile isParamChar = ps := by
  induction ps with
  | nil => simp [List.takeWhile_cons, ha]
  | cons c rest ih =>
    have hc : isParamChar c = true := hps c (by simp)
    simp only [List.cons_append, List.takeWhile_cons, hc]
    simp only [ite_true]
    rw [ih fun x hx => hps x (by simp [hx])]

theorem not_param_of_alpha (a : Char) (h : a.isAlpha = true) : isParamChar a = false := by
  unfold isParamChar isDigitChar
  by_contra hne
  rw [Bool.not_eq_false, Bool.or_eq_true] at hne
  rcases hne with hd | hs
  · simp only [List.elem_eq_mem, decide_eq_true_eq] at hd
    fin_cases hd <;> simp_all
  · rw [decide_eq_true_eq] at hs
    subst hs
    simp at h

theorem tokStep_valid (ps : List Char) (a : Char) (l : List Char)
    (hps : ∀ c ∈ ps, isParamChar c = true)
    (hv : validParams ps = true) (ha : a.isAlpha = true) :
    tokStep '\x1b' ('[' :: (ps ++ a :: l)) = some (some (String.mk ps), a, l) := by
  have hpa : isParamChar a = false := not_param_of_alpha a ha
  have hrun : (ps ++ a :: l).takeWhile isParamChar = ps :=
    takeWhile_param_append ps a l hps hpa
  have hne : ps.isEmpty = false := by
    unfold validParams at hv
    simp only [Bool.and_eq_true, Bool.not_eq_true'] at hv
    exact hv.1
  unfold tokStep
  simp only [if_pos rfl, hrun, List.drop_left, ha, hne, hv, Bool.true_and,
    Bool.or_true, if_true, Bool.false_or]
  simp

theorem tokStep_noparams (b : Char) (l : List Char)
    (hb : isParamChar b = false) (ha : b.isAlpha = true) :
    tokStep '\x1b' ('[' :: b :: l) = some (none, b, l) := by
  unfold tokStep
  simp only [if_pos rfl, List.takeWhile_cons, hb]
  simp [ha]

theorem tokStep_escm (l : List Char) :
    tokStep '\x1b' ('[' :: 'm' :: l) = some (none, 'm', l) :=
  tokStep_noparams 'm' l (by decide) (by decide)

-- prefix facts about the tag strings

theorem pyStartsWith_append (pre code : String) :
    pyStartsWith (pre ++ code) pre = true := by
  show (pre.data.isPrefixOf (pre.data ++ code.data)) = true
  rw [List.isPrefixOf_iff_prefix]
  exact List.prefix_append _ _

theorem fg_tag_not_bg (code : String) : pyStartsWith ("fg_" ++ code) "bg_" = false := by
  show (List.isPrefixOf ['b', 'g', '_'] ('f' :: 'g' :: '_' :: code.data)) = false
  simp [List.isPrefixOf]

theorem bg_tag_not_fg (code : String) : pyStartsWith ("bg_" ++ code) "fg_" = false := by
  show (List.isPrefixOf ['f', 'g', '_'] ('b' :: 'g' :: '_' :: code.data)) = false
  simp [List.isPrefixOf]

-- the generic "replace the slot" shape of the color branches

theorem filter_insert_filter_not (p : String → Bool) (x : String) (hx : p x = true)
    (tags : Finset String) :
    Finset.filter (fun t => p t) (insert x (tags.filter fun t => ¬ p t)) = {x} := by
  rw [Finset.filter_insert]
  rw [if_pos hx]
  rw [Finset.filter_filter]
  have : (tags.filter fun t => ¬ p t = true ∧ p t = true) = ∅ := by
    apply Finset.filter_false_of_mem
    intro t _ h
    exact absurd h.2 h.1
  rw [this]
  simp

theorem filter_insert_of_not (p : String → Bool) (x : String) (hx : p x = false)
    (s : Finset String) :
    Finset.filter (fun t => p t) (insert x s) = Finset.filter (fun t => p t) s := by
  rw [Finset.filter_insert, if_neg]
  simp [hx]

theorem card_filter_filter_not_le (p q : String → Bool) (tags : Finset String) :
    (Finset.filter (fun t => p t) (tags.filter fun t => ¬ q t)).card ≤
      (Finset.filter (fun t => p t) tags).card := by
  apply Finset.card_le_card
  rw [Finset.filter_filter]
  intro t ht
  simp only [Finset.mem_filter] at ht ⊢
  exact ⟨ht.1, ht.2.2⟩

-- every ATTRIBUTES value is one of the three attribute tags

theorem attr_cases (code attr : String) (h : List.lookup code ATTRIBUTES = some attr) :
    (code = "1" ∧ attr = "bold") ∨ (code = "3" ∧ attr = "italic") ∨
      (code = "4" ∧ attr = "underline") := by
  by_cases h1 : code = "1"
  · subst h1
    simp only [ATTRIBUTES] at h
    rw [show (List.lookup "1" [("1", "bold"), ("3", "italic"), ("4", "underline")]) =
      some "bold" from rfl] at h
    exact Or.inl ⟨rfl, (Option.some.injEq _ _ ▸ h).symm⟩
  · by_cases h3 : code = "3"
    · subst h3
      rw [show (List.lookup "3" ATTRIBUTES) = some "italic" from rfl] at h
      exact Or.inr (Or.inl ⟨rfl, (Option.some.injEq _ _ ▸ h).symm⟩)
    · by_cases h4 : code = "4"
      · subst h4
        rw [show (List.lookup "4" ATTRIBUTES) = some "underline" from rfl] at h
        exact Or.inr (Or.inr ⟨rfl, (Option.some.injEq _ _ ▸ h).symm⟩)
      · exfalso
        have : List.lookup code ATTRIBUTES = none := by
          simp only [ATTRIBUTES, List.lookup]
          rw [beq_eq_false_iff_ne.mpr h1, beq_eq_false_iff_ne.mpr h3,
            beq_eq_false_iff_ne.mpr h4]
        rw [this] at h
        exact Option.noConfusion h

-- styleInv is preserved by every SGR code

theorem styleInv_empty : styleInv ∅ := by
  constructor <;> simp [styleInv]

theorem styleInv_applyCode (tags : Finset String) (code : String) (h : styleInv tags) :
    styleInv (applyCode tags code) := by
  unfold applyCode
  split_ifs with h0 hfg hbg
  · exact styleInv_empty
  · constructor
    · rw [filter_insert_filter_not (fun t => pyStartsWith t "fg_") ("fg_" ++ code)
        (pyStartsWith_append "fg_" code)]
      simp
    · rw [filter_insert_of_not (fun t => pyStartsWith t "bg_") ("fg_" ++ code)
        (fg_tag_not_bg code)]
      exact le_trans (card_filter_filter_not_le _ _ tags) h.2
  · constructor
    · rw [filter_insert_of_not (fun t => pyStartsWith t "fg_") ("bg_" ++ code)
        (bg_tag_not_fg code)]
      exact le_trans (card_filter_filter_not_le _ _ tags) h.1
    · rw [filter_insert_filter_not (fun t => pyStartsWith t "bg_") ("bg_" ++ code)
        (pyStartsWith_append "bg_" code)]
      simp
  · cases hl : List.lookup code ATTRIBUTES with
    | none => simpa [hl] using h
    | some attr =>
      simp only [hl]
      rcases attr_cases code attr hl with ⟨_, ha⟩ | ⟨_, ha⟩ | ⟨_, ha⟩ <;> subst ha <;>
        exact ⟨by
          rw [filter_insert_of_not (fun t => pyStartsWith t "fg_") _ (by decide)]
          exact h.1,
         by
          rw [filter_insert_of_not (fun t => pyStartsWith t "bg_") _ (by decide)]
          exact h.2⟩

theorem styleInv_applySGR (tags : Finset String) (params : String) (h : styleInv tags) :
    styleInv (applySGR tags params) := by
  unfold applySGR
  generalize ((splitChar ';' params.data).map String.mk) = codes
  induction codes generalizing tags with
  | nil => simpa
  | cons c rest ih => exact ih (applyCode tags c) (styleInv_applyCode tags c h)

theorem processToks_inv (toks : List Tok) (tags : Finset String) (h : styleInv tags) :
    (∀ f ∈ (processToks tags toks).1, styleInv f.tags) ∧
      styleInv (processToks tags toks).2 := by
  induction toks generalizing tags with
  | nil => exact ⟨by simp [processToks], by simpa [processToks]⟩
  | cons t rest ih =>
    cases t with
    | lit s =>
      have h2 := ih tags h
      refine ⟨?_, by simpa [processToks] using h2.2⟩
      intro f hf
      simp only [processToks, List.mem_cons] at hf
      rcases hf with hf | hf
      · subst hf; exact h
      · exact h2.1 f hf
    | ctl p a =>
      cases p with
      | none => simpa [processToks] using ih tags h
      | some ps =>
        by_cases hm : a = 'm'
        · subst hm
          simpa [processToks] using
            ih (applySGR tags ps) (styleInv_applySGR tags ps h)
        · simpa [processToks, hm] using ih tags h

-- formatLines: newline exactly on non-final split elements

theorem formatLines_eq (pre : String) (lines : List String) :
    formatLines pre lines =
      ((lines.dropLast.filter fun l => lineSurvives l).map fun l => pre ++ l ++ "\n")
        ++ (if lineSurvives (lines.getLastD "") then [pre ++ lines.getLastD ""] else []) := by
  induction lines with
  | nil => simp [formatLines, lineSurvives]
  | cons l rest ih =>
    cases rest with
    | nil => simp [formatLines]
    | cons l2 rest2 =>
      rw [show formatLines pre (l :: l2 :: rest2) =
        (if lineSurvives l then [pre ++ l ++ "\n"] else []) ++ formatLines pre (l2 :: rest2)
        from rfl]
      rw [ih]
      rw [List.dropLast_cons₂]
      simp only [List.getLastD_cons]
      rw [List.filter_cons]
      split <;> simp

-- hex pairs

theorem chunkPairs_hexlify (data : List Nat) :
    chunkPairs (hexlify data) = data.map fun b => [hexDigit (b / 16), hexDigit (b % 16)] := by
  induction data with
  | nil => rfl
  | cons b rest ih =>
    rw [show hexlify (b :: rest) = hexDigit (b / 16) :: hexDigit (b % 16) :: hexlify rest
      from rfl]
    rw [show chunkPairs (hexDigit (b / 16) :: hexDigit (b % 16) :: hexlify rest) =
      [hexDigit (b / 16), hexDigit (b % 16)] :: chunkPairs (hexlify rest) from rfl]
    rw [ih]
    rfl

theorem hexDigit_lower (n : Nat) (h : n < 16) : isLowerHexDigit (hexDigit n) = true := by
  have : ∀ m : Nat, m < 16 → isLowerHexDigit (hexDigit m) = true := by decide
  exact this n h

-- List.lookup is none when heads differ

theorem lookup_none_of_head {β : Type} (code : String) (l : List (String × β))
    (h : ∀ p ∈ l, p.1.data.head? ≠ code.data.head?) :
    List.lookup code l = none := by
  induction l with
  | nil => rfl
  | cons p rest ih =>
    have hne : (code == p.1) = false := by
      apply beq_eq_false_iff_ne.mpr
      intro hcp
      exact h p (List.mem_cons_self p rest) (by rw [hcp])
    rw [show List.lookup code (p :: rest) = List.lookup code rest by simp [List.lookup, hne]]
    exact ih fun q hq => h q (List.mem_cons_of_mem p hq)

-- distinguishable error messages

theorem err_msgs_ne (port : String) :
    "Error: Invalid baud rate" ≠ "Error: Could not open port " ++ port := by
  intro h
  have h2 := congrArg (fun s => s.data.length) h
  simp only at h2
  rw [show ("Error: Could not open port " ++ port).data =
    ("Error: Could not open port ").data ++ port.data from rfl] at h2
  rw [List.length_append] at h2
  rw [show ("Error: Invalid baud rate").data.length = 24 from rfl] at h2
  rw [show ("Error: Could not open port ").data.length = 27 from rfl] at h2
  omega

-- C10 helper: leading-zero codes take no branch of applyCode

theorem applyCode_leading_zero (tags : Finset String) (code : String)
    (h0 : code.data.head? = some '0') (hlen : 2 ≤ code.data.length) :
    applyCode tags code = tags := by
  have hne : code ≠ "0" := by
    intro h
    subst h
    exact absurd hlen (by decide)
  have hC : List.lookup code COLORS = none := by
    apply lookup_none_of_head
    intro p hp
    rw [h0]
    fin_cases hp <;> decide
  have hA : List.lookup code ATTRIBUTES = none := by
    apply lookup_none_of_head
    intro p hp
    rw [h0]
    fin_cases hp <;> decide
  have hS : pyStartsWith code "4" = false := by
    cases hd : code.data with
    | nil => rw [hd] at h0; exact absurd h0 (by simp)
    | cons c rest =>
      rw [hd] at h0
      simp only [List.head?_cons, Option.some.injEq] at h0
      subst h0
      simp [pyStartsWith, hd, List.isPrefixOf]
  unfold applyCode
  rw [if_neg hne]
  rw [hC, hA, hS]
  simp

-- byte-to-hex bounds

theorem div16_lt (b : Nat) (h : b < 256) : b / 16 < 16 :=
  Nat.div_lt_of_lt_mul (by omega)

/-!
### Claim theorems
-/

/-- Claim C1 counterexample: with chunk "\x1b[31mA" processed in one call and
"B" in the next call of the same session, the fragment for "B" carries the
empty style, not the red foreground the claim predicts. -/
theorem C1_counterexample :
    (update_display (update_display ⟨[]⟩ "\x1b[31mA") "B").content
      = [⟨"A", {"fg_31"}⟩, ⟨"B", (∅ : Finset String)⟩] ∧
    (update_display (update_display ⟨[]⟩ "\x1b[31mA") "B").content
      ≠ [⟨"A", {"fg_31"}⟩, ⟨"B", ({"fg_31"} : Finset String)⟩] := by
  constructor
  · decide
  · decide

/-- Claim C1 (amended): the active style set does not persist across calls:
`process_text` re-creates `active_tags = set()` at every call, so the
fragments appended by a call are independent of all earlier calls of the
session; in particular "B" sent after "\x1b[31mA" is rendered unstyled. -/
theorem C1_no_carryover (w : Widget) (prev s : String) :
    (update_display (update_display w prev) s).content
      = w.content ++ (process_text prev).1 ++ (process_text s).1 ∧
    (update_display (update_display ⟨[]⟩ "\x1b[31mA") "B").content
      = [⟨"A", {"fg_31"}⟩, ⟨"B", (∅ : Finset String)⟩] :=
  ⟨rfl, by decide⟩

/-- Claim C2 evidence of the code bug: the standard background codes 41 and
101 leave the style set unchanged (the `code.startswith('4') and code[1:] in
COLORS` branch does not match them), although `init_tags` configures exactly
the tags `bg_40`..`bg_47`, `bg_100`..`bg_107`; the branch instead fires on
`'4' + <foreground code>` strings such as 430, producing a tag that
`init_tags` never configures. -/
theorem C2_background_codes :
    (process_text "\x1b[41mX").1 = [⟨"X", (∅ : Finset String)⟩] ∧
    (process_text "\x1b[101mX").1 = [⟨"X", (∅ : Finset String)⟩] ∧
    (process_text "\x1b[430mX").1 = [⟨"X", {"bg_430"}⟩] ∧
    "bg_41" ∈ configuredTags ∧ "bg_101" ∈ configuredTags ∧
    "bg_430" ∉ configuredTags := by
  refine ⟨by decide, by decide, by decide, by decide, by decide, by decide⟩

/-- Claim C3 counterexample: "\x1b[m" does not clear the style set; after
"\x1b[31mA\x1b[mB" the fragment "B" still carries the red foreground. -/
theorem C3_counterexample :
    (process_text "\x1b[31mA\x1b[mB").1
      = [⟨"A", {"fg_31"}⟩, ⟨"B", {"fg_31"}⟩] ∧
    ({"fg_31"} : Finset String) ≠ (∅ : Finset String) := by
  constructor
  · decide
  · decide

/-- Claim C3 (amended): the explicit parameter code 0 clears the whole
active style set, but an SGR sequence with an empty or missing parameter
list, such as "\x1b[m", is consumed without any effect: the `if parts[i]`
truthiness guard skips a `None` parameter group. -/
theorem C3_reset_semantics (tags : Finset String) (s : String) :
    applySGR tags "0" = ∅ ∧
    processToks tags (coalesce (tokenize ("\x1b[m" ++ s).data))
      = processToks tags (coalesce (tokenize s.data)) := by
  constructor
  · rfl
  · have key : tokenize ('\x1b' :: '[' :: 'm' :: s.data)
        = CTok.ctl none 'm' :: tokenize s.data :=
      tokenize_cons_of_tokStep _ _ _ _ _ (tokStep_escm s.data)
    calc processToks tags (coalesce (tokenize ("\x1b[m" ++ s).data))
        = processToks tags (coalesce (tokenize ('\x1b' :: '[' :: 'm' :: s.data))) := by
          rw [String.data_append]
          rfl
      _ = processToks tags (coalesce (CTok.ctl none 'm' :: tokenize s.data)) := by rw [key]
      _ = processToks tags (coalesce (tokenize s.data)) := rfl

/-- Claim C4 evidence of the code bug: the unrecognized codes 2, 5 and 38
are ignored as the claim states, but 432 — also outside the recognized set —
is treated by the `startswith('4')` branch as a background code and changes
the style set. -/
theorem C4_unrecognized_codes :
    applySGR ∅ "2" = ∅ ∧ applySGR ∅ "5" = ∅ ∧ applySGR ∅ "38" = ∅ ∧
    (process_text "\x1b[432mX").1 = [⟨"X", {"bg_432"}⟩] ∧
    ({"bg_432"} : Finset String) ≠ (∅ : Finset String) := by
  refine ⟨by decide, by decide, by decide, by decide, by decide⟩

/-- Claim C5 counterexample: for "a\n\nb\n" the last surviving line "b" is
not the last element of the split (a dropped empty line follows it), so the
code appends a line feed after it: the output is "a\nb\n", not "a\nb". -/
theorem C5_counterexample :
    display_text "a\n\nb\n" "" = "a\nb\n" ∧
    display_text "a\n\nb\n" "" ≠ "a\nb" := by
  constructor
  · decide
  · decide

/-- Claim C5 (amended): after stripping carriage returns, splitting on
line-feed and dropping blank lines, a line feed is appended after every
surviving line that is not the final element of the split; the line from the
final split element is never forced to end in a line feed, but a last
survivor followed by dropped blank lines does get one, so "a\n\nb\n" with
timestamps off formats to "a\n" followed by "b\n". -/
theorem C5_line_filtering (pre : String) (lines : List String) :
    formatLines pre lines =
      ((lines.dropLast.filter fun l => lineSurvives l).map fun l => pre ++ l ++ "\n")
        ++ (if lineSurvives (lines.getLastD "") then [pre ++ lines.getLastD ""] else []) ∧
    display_text "a\n\nb\n" "" = "a\nb\n" :=
  ⟨formatLines_eq pre lines, by decide⟩

/-- Claim C6 counterexample: the malformed sequence "\x1b[31;m" (trailing
semicolon) does not match `ANSI_PATTERN`, so it is not consumed: its bytes
appear verbatim as literal output text. -/
theorem C6_counterexample :
    (process_text "\x1b[31;m").1 = [⟨"\x1b[31;m", (∅ : Finset String)⟩] := by
  decide

/-- Claim C6 (amended): a control sequence that matches `ANSI_PATTERN` and
whose final letter is not 'm' is consumed without any effect on the style
state or the output; input that does not match the pattern — such as the
trailing-semicolon form "\x1b[31;m" — is not treated as a control sequence
and passes through as literal text; neither case raises an error. -/
theorem C6_non_sgr_consumed (ps : String) (a : Char) (s : String) (tags : Finset String)
    (hpc : ∀ c ∈ ps.data, isParamChar c = true)
    (hv : validParams ps.data = true)
    (ha : a.isAlpha = true) (hm : a ≠ 'm') :
    (processToks tags (coalesce (tokenize ("\x1b[" ++ ps ++ String.mk [a] ++ s).data))
      = processToks tags (coalesce (tokenize s.data))) ∧
    (∀ (b : Char), b.isAlpha = true → b ≠ 'm' →
      processToks tags (coalesce (tokenize ("\x1b[" ++ String.mk [b] ++ s).data))
        = processToks tags (coalesce (tokenize s.data))) := by
  refine ⟨?_, ?_⟩
  case refine_2 =>
    intro b hba hbm
    have hb : isParamChar b = false := not_param_of_alpha b hba
    have hdata2 : ("\x1b[" ++ String.mk [b] ++ s).data = '\x1b' :: '[' :: b :: s.data := by
      simp only [String.data_append]
      rfl
    rw [hdata2]
    have key2 : tokenize ('\x1b' :: '[' :: b :: s.data)
        = CTok.ctl none b :: tokenize s.data :=
      tokenize_cons_of_tokStep _ _ _ _ _ (tokStep_noparams b s.data hb hba)
    rw [key2]
    rfl
  have hdata : ("\x1b[" ++ ps ++ String.mk [a] ++ s).data
      = '\x1b' :: '[' :: (ps.data ++ a :: s.data) := by
    simp only [String.data_append, List.append_assoc]
    rfl
  rw [hdata]
  have key : tokenize ('\x1b' :: ('[' :: (ps.data ++ a :: s.data)))
      = CTok.ctl (some (String.mk ps.data)) a :: tokenize s.data :=
    tokenize_cons_of_tokStep _ _ _ _ _ (tokStep_valid ps.data a s.data hpc hv ha)
  rw [key]
  show processToks tags (Tok.ctl (some (String.mk ps.data)) a :: coalesce (tokenize s.data))
      = processToks tags (coalesce (tokenize s.data))
  simp [processToks, hm]

/-- Witness for C6: the cursor-control sequence "\x1b[2J" is consumed with
no effect. -/
theorem C6_witness :
    processToks ∅ (coalesce (tokenize ("\x1b[" ++ "2" ++ String.mk ['J'] ++ "ok").data))
      = processToks ∅ (coalesce (tokenize ("ok" : String).data)) :=
  (C6_non_sgr_consumed "2" 'J' "ok" ∅ (by decide) (by decide) (by decide) (by decide)).1

/-- Claim C7: at most one foreground and one background tag are active at
any point; a foreground code leaves exactly its own tag as the foreground
(replacing any other), a recognized background code likewise for the
background, an attribute code only inserts its attribute tag (accumulating),
and "\x1b[31mA\x1b[32mB" styles "A" red and "B" green, never both. -/
theorem C7_style_invariant (text : String) (tags : Finset String)
    (fgcode bgcode attrcode attr : String)
    (hfg : (List.lookup fgcode COLORS).isSome = true)
    (hbg0 : bgcode ≠ "0")
    (hbg1 : List.lookup bgcode COLORS = none)
    (hbg2 : pyStartsWith bgcode "4" = true)
    (hbg3 : (List.lookup (String.mk (bgcode.data.drop 1)) COLORS).isSome = true)
    (hattr : List.lookup attrcode ATTRIBUTES = some attr) :
    (∀ f ∈ (process_text text).1, styleInv f.tags) ∧
    styleInv (process_text text).2 ∧
    Finset.filter (fun t => pyStartsWith t "fg_") (applyCode tags fgcode)
      = {"fg_" ++ fgcode} ∧
    Finset.filter (fun t => pyStartsWith t "bg_") (applyCode tags bgcode)
      = {"bg_" ++ bgcode} ∧
    applyCode tags attrcode = insert attr tags ∧
    (process_text "\x1b[31mA\x1b[32mB").1
      = [⟨"A", {"fg_31"}⟩, ⟨"B", {"fg_32"}⟩] := by
  refine ⟨(processToks_inv _ ∅ styleInv_empty).1,
          (processToks_inv _ ∅ styleInv_empty).2, ?_, ?_, ?_, by decide⟩
  · have h0 : ¬ fgcode = "0" := by
      intro h
      rw [h] at hfg
      exact absurd hfg (by decide)
    unfold applyCode
    rw [if_neg h0, if_pos hfg]
    exact filter_insert_filter_not (fun t => pyStartsWith t "fg_") ("fg_" ++ fgcode)
      (pyStartsWith_append "fg_" fgcode) tags
  · unfold applyCode
    rw [if_neg hbg0, if_neg (by rw [hbg1]; decide), if_pos (by rw [hbg2, hbg3]; rfl)]
    exact filter_insert_filter_not (fun t => pyStartsWith t "bg_") ("bg_" ++ bgcode)
      (pyStartsWith_append "bg_" bgcode) tags
  · rcases attr_cases attrcode attr hattr with ⟨hc, ha⟩ | ⟨hc, ha⟩ | ⟨hc, ha⟩ <;>
      subst hc <;> subst ha <;> rfl

/-- Witness for C7: applying foreground code 31 to a set holding white
foreground and bold leaves exactly `fg_31` as the foreground tag. -/
theorem C7_witness :
    Finset.filter (fun t => pyStartsWith t "fg_")
        (applyCode {"fg_37", "bold"} "31") = {"fg_" ++ "31"} :=
  (C7_style_invariant "A" {"fg_37", "bold"} "31" "430" "1" "bold"
    (by decide) (by decide) (by decide) (by decide) (by decide) (by decide)).2.2.1

/-- Claim C8: the hex formatter renders every byte as exactly two lowercase
hex digits, single-space separated, as one flat string, and the timestamp
prefix is prepended exactly once to the whole string. -/
theorem C8_hex_format (data : List Nat) (ts : String) (hbytes : ∀ b ∈ data, b < 256) :
    display_hex data ts = ts ++ joinWith " " (data.map hexPairStr) ∧
    (∀ b ∈ data, (hexPairStr b).data.length = 2 ∧
      ∀ c ∈ (hexPairStr b).data, isLowerHexDigit c = true) ∧
    display_hex [0, 1, 255] "" = "00 01 ff" ∧
    display_hex [0, 1, 255] "[12:00:00.000] " = "[12:00:00.000] 00 01 ff" := by
  refine ⟨?_, ?_, by decide, by decide⟩
  · unfold display_hex
    rw [chunkPairs_hexlify, List.map_map]
    rfl
  · intro b hb
    refine ⟨rfl, ?_⟩
    intro c hc
    have h2 : c = hexDigit (b / 16) ∨ c = hexDigit (b % 16) := by
      simpa [hexPairStr] using hc
    have hlt := hbytes b hb
    rcases h2 with h2 | h2 <;> subst h2
    · exact hexDigit_lower _ (div16_lt b hlt)
    · exact hexDigit_lower _ (Nat.mod_lt _ (by omega))

/-- Witness for C8 at the bytes 0x00 0x01 0xFF. -/
theorem C8_witness : display_hex [0, 1, 255] "" = "00 01 ff" :=
  (C8_hex_format [0, 1, 255] "" (by decide)).2.2.1

/-- Claim C9: when opening fails — the baud text does not parse, or the
device cannot be opened — the connection state stays closed: no device
handle, no reader flag, no reader thread; the status reports the failure,
and the two failure kinds yield distinguishable messages. -/
theorem C9_open_failure (st : ConnState) (port baudText : String) (dev : OpenResult)
    (hport : port ≠ "")
    (hsp : st.serial_port = none) (hrd : st.is_reading = false)
    (hth : st.read_thread = false)
    (hfail : pyIntDec baudText = none ∨ dev = OpenResult.serialError) :
    (open_connection st port baudText dev).serial_port = none ∧
    (open_connection st port baudText dev).is_reading = false ∧
    (open_connection st port baudText dev).read_thread = false ∧
    (pyIntDec baudText = none →
      (open_connection st port baudText dev).status = "Error: Invalid baud rate") ∧
    (pyIntDec baudText ≠ none →
      (open_connection st port baudText dev).status
        = "Error: Could not open port " ++ port) ∧
    "Error: Invalid baud rate" ≠ "Error: Could not open port " ++ port := by
  unfold open_connection
  rw [if_neg hport]
  cases hp : pyIntDec baudText with
  | none =>
    exact ⟨hsp, hrd, hth, fun _ => rfl, fun hne => absurd rfl hne, err_msgs_ne port⟩
  | some baud =>
    have hdev : dev = OpenResult.serialError := by
      rcases hfail with hf | hf
      · rw [hf] at hp
        exact Option.noConfusion hp
      · exact hf
    subst hdev
    exact ⟨hsp, hrd, hth, fun hc => Option.noConfusion hc, fun _ => rfl, err_msgs_ne port⟩

/-- Witness for C9: a non-numeric baud text on a closed state. -/
theorem C9_witness :
    (open_connection ⟨none, false, false, "Not connected"⟩ "COM3" "abc"
        OpenResult.serialError).serial_port = none ∧
    (open_connection ⟨none, false, false, "Not connected"⟩ "COM3" "abc"
        OpenResult.serialError).status = "Error: Invalid baud rate" := by
  have h := C9_open_failure ⟨none, false, false, "Not connected"⟩ "COM3" "abc"
    OpenResult.serialError (by decide) rfl rfl rfl (Or.inl (by decide))
  exact ⟨h.1, h.2.2.2.1 (by decide)⟩

/-- Claim C10: SGR codes are matched by their exact digit strings, so a
zero-padded code (leading '0', length at least two) matches no table entry
and leaves the style set unchanged; in particular "\x1b[00m" and "\x1b[01m"
neither reset nor set bold. -/
theorem C10_zero_padded (tags : Finset String) (code : String)
    (h0 : code.data.head? = some '0') (hlen : 2 ≤ code.data.length) :
    applyCode tags code = tags ∧
    (process_text "\x1b[00mA").1 = [⟨"A", (∅ : Finset String)⟩] ∧
    (process_text "\x1b[01mA").1 = [⟨"A", (∅ : Finset String)⟩] ∧
    (process_text "\x1b[00mA").2 = ∅ ∧
    (process_text "\x1b[01mA").2 = ∅ :=
  ⟨applyCode_leading_zero tags code h0 hlen, by decide, by decide, by decide, by decide⟩

/-- Witness for C10 at the codes "00" and "01". -/
theorem C10_witness :
    applyCode ({"fg_31", "bold"} : Finset String) "00" = {"fg_31", "bold"} ∧
    applyCode ({"fg_31", "bold"} : Finset String) "01" = {"fg_31", "bold"} :=
  ⟨(C10_zero_padded {"fg_31", "bold"} "00" (by decide) (by decide)).1,
   (C10_zero_padded {"fg_31", "bold"} "01" (by decide) (by decide)).1⟩

end PySerialUI
